import Mathlib

/-!
Verification of the 121-search-engine index builder and query engine.

Shallow embedding of the Python sources of `yraman17/121-search-engine`:

* `src/lib/duplicate_detector.py` (SimHash banding, `DuplicateDetector`)
* `src/code/duplicate_detection.py` (second `DuplicateDetector` variant)
* `src/lib/index.py` (`Posting`, `IndexEntry`, `Index`, partial-index IO,
  `merge_partial_indexes`)
* `src/code/index.py`, `src/code/index_io.py` (second index variant)
* `src/boolean_search.py` (query engine)

Machine integers are modelled as `Int`/`Nat` (Python integers are unbounded,
so no wrap-around is involved).  External collaborators (hashlib's MD5/SHA-256,
the NLTK tokenizer and Porter stemmer, the file system, the doc-id mapping
dict) are passed in as explicit parameters; everything else is translated from
the source.  JSON files are modelled at the value level: a line-delimited file
is a `List Json`, a whole-file JSON document is a single `Json` value.
Fallible Python code (KeyError, ValueError, FileNotFoundError, AttributeError)
is modelled with `Except PyErr`.
-/

/-- Python exceptions that the embedded code can raise. -/
inductive PyErr where
  | keyError (key : String)
  | valueError
  | fileNotFoundError
  | attributeError
  deriving DecidableEq, Repr

/-- JSON values (`json.loads` / `json.dumps` work at this level; text-level
serialisation is orthogonal to every claim). -/
inductive Json where
  | null
  | num (n : Int)
  | str (s : String)
  | arr (elems : List Json)
  | obj (fields : List (String × Json))
  deriving Repr

namespace Json

/-- `d[k]`-style lookup on a JSON object: first field with the given key
(CPython dicts have unique keys; `IndexEntry.from_dict` reads objects). -/
def lookup : Json → String → Option Json
  | obj fields, k => (fields.find? (fun kv => kv.1 = k)).map (·.2)
  | _, _ => none

/-- Python `d[k]`: `KeyError` when the key is absent. -/
def getItem (j : Json) (k : String) : Except PyErr Json :=
  match j.lookup k with
  | some v => .ok v
  | none => .error (.keyError k)

/-- Python `d.get(k, default)`. -/
def getD (j : Json) (k : String) (default : Json) : Json :=
  (j.lookup k).getD default

/-- Read a JSON value at its annotated integer type (the Python code reads
`d["doc_id"]` etc. into fields annotated `int`; inputs in all claims are
well-typed numbers). -/
def asInt : Json → Except PyErr Int
  | num n => .ok n
  | _ => .error .valueError

/-- Read a JSON value at its annotated string type. -/
def asStr : Json → Except PyErr String
  | str s => .ok s
  | _ => .error .valueError

/-- Read a JSON value as an array. -/
def asArr : Json → Except PyErr (List Json)
  | arr xs => .ok xs
  | _ => .error .valueError

end Json

/-- `Importance` from `src/lib/index.py` / `src/code/index.py`:
`NORMAL = 0 < BOLD_OR_HEADING = 1 < TITLE = 2`. -/
inductive Importance where
  | NORMAL
  | BOLD_OR_HEADING
  | TITLE
  deriving DecidableEq, Repr

namespace Importance

/-- `int(importance)` (the `IntEnum` value). -/
def toInt : Importance → Int
  | NORMAL => 0
  | BOLD_OR_HEADING => 1
  | TITLE => 2

/-- `Importance(v)`: raises `ValueError` for values outside the enum. -/
def ofInt : Int → Except PyErr Importance
  | 0 => .ok NORMAL
  | 1 => .ok BOLD_OR_HEADING
  | 2 => .ok TITLE
  | _ => .error .valueError

/-- Comparison of `IntEnum` members compares the underlying integers. -/
def lt (a b : Importance) : Prop := a.toInt < b.toInt

instance : LT Importance := ⟨Importance.lt⟩

instance : DecidableRel (fun (a b : Importance) => a < b) := fun a b =>
  inferInstanceAs (Decidable (a.toInt < b.toInt))

end Importance

/-- `Posting` (`src/lib/index.py` lines 20-41, identical dataclass in
`src/code/index.py`). -/
structure Posting where
  doc_id : Int
  tf : Int
  importance : Importance
  deriving DecidableEq, Repr

namespace Posting

/-- `Posting.from_dict` (`src/lib/index.py` lines 35-41):
`doc_id=d["doc_id"], tf=d["tf"], importance=Importance(d.get("importance", 0))`. -/
def fromDict (d : Json) : Except PyErr Posting := do
  let docIdJ ← d.getItem "doc_id"
  let doc_id ← docIdJ.asInt
  let tfJ ← d.getItem "tf"
  let tf ← tfJ.asInt
  let impJ := d.getD "importance" (.num 0)
  let impV ← impJ.asInt
  let importance ← Importance.ofInt impV
  pure ⟨doc_id, tf, importance⟩

/-- The dict produced for a posting by `asdict` in `src/lib/index.py`
(dataclass field order: `doc_id`, `tf`, `importance`; the `IntEnum`
serialises as its integer). -/
def toJson (p : Posting) : Json :=
  .obj [("doc_id", .num p.doc_id), ("tf", .num p.tf),
        ("importance", .num p.importance.toInt)]

end Posting

/-- `IndexEntry` (`src/lib/index.py` lines 44-92).  The `src/code/index.py`
variant has no `document_frequency` field; its operations simply never touch
that field here. -/
structure IndexEntry where
  token : String
  postings : List Posting
  document_frequency : Int
  deriving DecidableEq, Repr

namespace IndexEntry

/-- `IndexEntry.from_dict` (`src/lib/index.py` lines 87-92):
`token = d["token"]`, `postings = [Posting.from_dict(p) for p in d["postings"]]`,
`document_frequency = d.get("document_frequency", 0)`. -/
def fromDict (d : Json) : Except PyErr IndexEntry := do
  let tokenJ ← d.getItem "token"
  let token ← tokenJ.asStr
  let postingsJ ← d.getItem "postings"
  let postingsArr ← postingsJ.asArr
  let postings ← postingsArr.mapM Posting.fromDict
  let dfJ := d.getD "document_frequency" (.num 0)
  let df ← dfJ.asInt
  pure ⟨token, postings, df⟩

/-- `asdict(entry)` for the lib dataclass (field order `token`, `postings`,
`document_frequency`); this is the JSON written per line by
`merge_partial_indexes` and `Index.write_to_disk`. -/
def toJsonLib (e : IndexEntry) : Json :=
  .obj [("token", .str e.token), ("postings", .arr (e.postings.map Posting.toJson)),
        ("document_frequency", .num e.document_frequency)]

/-- `_entry_to_dict` (`src/code/index_io.py` lines 15-19): only `token` and
`postings`, no `document_frequency`. -/
def toJsonCode (e : IndexEntry) : Json :=
  .obj [("token", .str e.token), ("postings", .arr (e.postings.map Posting.toJson))]

end IndexEntry

/-! ## In-memory index operations (`src/lib/index.py`, `src/code/index.py`) -/

namespace IndexEntry

/-- `add_or_update_posting` of `src/lib/index.py` (lines 62-74), acting on the
postings list.  The source locates the posting with `bisect_left` on the
`doc_id`-sorted list and either mutates it in place or `bisect.insort`s a new
posting (insort inserts after equal keys, i.e. before the first strictly
greater `doc_id`); on the key-sorted lists the code operates on this is the
single left-to-right pass below. -/
def aupLib (doc_id tf_delta : Int) (importance : Importance) :
    List Posting → List Posting
  | [] => [⟨doc_id, tf_delta, importance⟩]
  | p :: ps =>
    if p.doc_id < doc_id then p :: aupLib doc_id tf_delta importance ps
    else if p.doc_id = doc_id then
      { p with tf := p.tf + tf_delta,
               importance := if p.importance < importance then importance
                             else p.importance } :: ps
    else ⟨doc_id, tf_delta, importance⟩ :: p :: ps

/-- The lib `add_or_update_posting` on a whole entry: also increments
`document_frequency` when a new posting is created (line 74). -/
def addOrUpdatePostingLib (e : IndexEntry) (doc_id tf_delta : Int)
    (importance : Importance) : IndexEntry :=
  if e.postings.any (fun p => p.doc_id = doc_id) then
    { e with postings := aupLib doc_id tf_delta importance e.postings }
  else
    { e with postings := aupLib doc_id tf_delta importance e.postings,
             document_frequency := e.document_frequency + 1 }

/-- `IndexEntry.merge` (`src/lib/index.py` lines 76-79): fold
`add_or_update_posting` over the other entry's postings. -/
def mergeLib (e other : IndexEntry) : IndexEntry :=
  other.postings.foldl
    (fun acc p => acc.addOrUpdatePostingLib p.doc_id p.tf p.importance) e

/-- First pass of the `src/code/index.py` `add_or_update_posting` (lines
34-39): update the first posting with the given `doc_id` in place, or report
that none exists. -/
def updateFirstCode (doc_id tf_delta : Int) (importance : Importance) :
    List Posting → Option (List Posting)
  | [] => none
  | p :: ps =>
    if p.doc_id = doc_id then
      some ({ p with tf := p.tf + tf_delta,
                     importance := if p.importance < importance then importance
                                   else p.importance } :: ps)
    else (updateFirstCode doc_id tf_delta importance ps).map (p :: ·)

/-- `add_or_update_posting` of `src/code/index.py` (lines 32-42): linear scan;
if absent, append the new posting and re-sort stably by `doc_id`
(`postings.sort(key=lambda x: x.doc_id)`; Python's sort is stable, as is
`List.insertionSort`). -/
def aupCode (e : IndexEntry) (doc_id tf_delta : Int)
    (importance : Importance) : IndexEntry :=
  match updateFirstCode doc_id tf_delta importance e.postings with
  | some ps => { e with postings := ps }
  | none =>
    let sorted :=
      (e.postings ++ [Posting.mk doc_id tf_delta importance]).insertionSort
        (fun a b => a.doc_id ≤ b.doc_id)
    { e with postings := sorted }

/-- `IndexEntry.merge` of `src/code/index.py` (lines 44-47). -/
def mergeCode (e other : IndexEntry) : IndexEntry :=
  other.postings.foldl (fun acc p => acc.aupCode p.doc_id p.tf p.importance) e

end IndexEntry

/-- The `Index` of both variants: a token-sorted entry list.  The Python class
also keeps a `token_to_entry` dict aliasing the same (mutable) entries; in
this functional model the dict is the derived map `token ↦ entry of the
list`, so updating "through the dict" updates the listed entry. -/
abbrev PyIndex := List IndexEntry

namespace PyIndex

/-- `bisect.insort(self.entries, entry, key=lambda x: x.token)`: insert after
equal tokens, i.e. before the first strictly greater token. -/
def insortEntry (e : IndexEntry) : PyIndex → PyIndex
  | [] => [e]
  | f :: fs => if f.token ≤ e.token then f :: insortEntry e fs else e :: f :: fs

/-- Update the entry a token aliases (the effect of mutating
`self.token_to_entry[token]`). -/
def updateEntry (token : String) (g : IndexEntry → IndexEntry) : PyIndex → PyIndex
  | [] => []
  | f :: fs => if f.token = token then g f :: fs else f :: updateEntry token g fs

/-- `Index.add_token` (`src/lib/index.py` lines 101-114; the `src/code`
variant differs only in calling its own `add_or_update_posting`, selected by
the `aup` argument).  Rejects `tf <= 0`; creates an empty entry if the token
is absent; then calls `add_or_update_posting` on the token's entry. -/
def addToken (aup : IndexEntry → Int → Int → Importance → IndexEntry)
    (idx : PyIndex) (token : String) (doc_id tf : Int)
    (importance : Importance) : PyIndex :=
  if tf ≤ 0 then idx
  else
    let idx' := if idx.any (fun e => e.token = token) then idx
                else idx.insortEntry ⟨token, [], 0⟩
    idx'.updateEntry token (fun e => aup e doc_id tf importance)

/-- `Index.merge` (`src/lib/index.py` lines 123-130): adopt absent entries
(inserted token-sorted), merge present ones pairwise. -/
def mergeIndex (merge : IndexEntry → IndexEntry → IndexEntry)
    (idx other : PyIndex) : PyIndex :=
  other.foldl
    (fun acc e =>
      if acc.any (fun f => f.token = e.token) then
        acc.updateEntry e.token (fun f => merge f e)
      else acc.insortEntry e)
    idx

end PyIndex

/-- The posting-list invariant of the spec: `doc_id`s strictly increasing
(hence unique). -/
def PostingsInv (ps : List Posting) : Prop :=
  ps.Pairwise (fun p q => p.doc_id < q.doc_id)

instance (ps : List Posting) : Decidable (PostingsInv ps) := by
  unfold PostingsInv; infer_instance

/-! ## Duplicate detection (`src/lib/duplicate_detector.py`,
`src/code/duplicate_detection.py`, `src/code/simhash.py`)

`hashlib.md5` / `hashlib.sha256` are external primitives; they enter as
explicit function parameters `termHash` (the 64-bit big-endian prefix of the
MD5 digest, as computed in `compute_simhash`) and `chash` (the SHA-256 hex
digest computed by `content_hash`). -/

/-- The constants of `src/lib/globals.py` / `src/code/duplicate_detection.py`. -/
def HAMMING_K : Nat := 3

def NUM_BITS : Nat := 64

/-- `compute_simhash` (`src/lib/duplicate_detector.py` lines 5-23): signed
per-bit accumulator over the weighted terms, then the sign bits.  Token
counts are a dict, modelled as an association list in insertion order (the
result does not depend on the order). -/
def computeSimhash (termHash : String → Nat) (token_counts : List (String × Int))
    (num_bits : Nat) : Nat :=
  let bit_sums : List Int :=
    token_counts.foldl
      (fun sums tw =>
        if tw.2 ≤ 0 then sums
        else
          (List.range num_bits).map
            (fun i =>
              if (termHash tw.1) >>> i &&& 1 = 1 then sums.getD i 0 + tw.2
              else sums.getD i 0 - tw.2))
      (List.replicate num_bits 0)
  (List.range num_bits).foldl
    (fun fp i => if 0 < bit_sums.getD i 0 then fp ||| (1 <<< i) else fp) 0

/-- The loop body of `hamming_distance` (`src/lib/duplicate_detector.py`
lines 26-33): `while x and bits > 0: n += x & 1; x >>= 1; bits -= 1`. -/
def hammingLoop (x : Nat) : Nat → Nat
  | 0 => 0
  | bits + 1 => if x = 0 then 0 else x % 2 + hammingLoop (x / 2) bits

/-- `hamming_distance(a, b, bits)`: population count of `a ^ b` over the low
`bits` bits. -/
def hamming_distance (a b : Nat) (bits : Nat) : Nat :=
  hammingLoop (a ^^^ b) bits

/-- `block_values` (`src/lib/duplicate_detector.py` lines 36-45):
`block_size = num_bits // num_blocks`, block `i` is
`(fingerprint >> (i * block_size)) & ((1 << block_size) - 1)`. -/
def block_values (fingerprint : Nat) (num_bits num_blocks : Nat) : List Nat :=
  let block_size := num_bits / num_blocks
  (List.range num_blocks).map
    (fun i => fingerprint >>> (i * block_size) &&& ((1 <<< block_size) - 1))

/-- One band map `block_value -> [(fingerprint, doc_id)]`, modelled as an
association list (Python dict, insertion-ordered, unique keys). -/
abbrev Band := List (Nat × List (Nat × Nat))

/-- `band.get(block_val, [])`. -/
def Band.getBucket (band : Band) (block_val : Nat) : List (Nat × Nat) :=
  ((band.find? (fun kv => kv.1 = block_val)).map (·.2)).getD []

/-- `if block_val not in band: band[block_val] = []; band[block_val].append(p)`
(the body of `add_doc` for one band). -/
def Band.appendTo (band : Band) (block_val : Nat) (p : Nat × Nat) : Band :=
  if (band.find? (fun kv => kv.1 = block_val)).isSome then
    band.map (fun kv => if kv.1 = block_val then (kv.1, kv.2 ++ [p]) else kv)
  else band ++ [(block_val, [p])]

/-- The state of `DuplicateDetector` (identical fields in both variants):
seen SHA-256 hex digests, the Hamming threshold `k`, and `k + 1` band maps.
(`_num_blocks` is always `_hamming_k + 1` and is kept implicit as
`blockIndexes.length`.) -/
structure DuplicateDetector where
  seenContentHashes : List String
  hammingK : Nat
  blockIndexes : List Band
  deriving Repr

/-- `DuplicateDetector.__init__(hamming_k)`. -/
def DuplicateDetector.init (hamming_k : Nat) : DuplicateDetector :=
  ⟨[], hamming_k, List.replicate (hamming_k + 1) []⟩

namespace DuplicateDetector

/-- `register_content_hash` (both variants): insert the content hash into the
seen set (a Python `set`; list-with-dedup models membership faithfully). -/
def registerContentHash (chash : String → String) (st : DuplicateDetector)
    (content : Option String) : DuplicateDetector :=
  match content with
  | none => st
  | some c =>
    if chash c ∈ st.seenContentHashes then st
    else { st with seenContentHashes := st.seenContentHashes ++ [chash c] }

/-- `add_doc` (both variants): append `(simhash, doc_id)` to the bucket of
each of the fingerprint's blocks. -/
def addDoc (st : DuplicateDetector) (simhash doc_id : Nat) : DuplicateDetector :=
  let blocks := block_values simhash NUM_BITS (st.hammingK + 1)
  let bands :=
    st.blockIndexes.enum.map
      (fun bi => bi.2.appendTo (blocks.getD bi.1 0) (simhash, doc_id))
  { st with blockIndexes := bands }

/-- The near-duplicate scan shared by both `check` variants: for each band, if
any candidate in the bucket of the fingerprint's block is within the Hamming
threshold, the scan reports a near duplicate.  (The Python loop returns
`("near", None)` at the first hit; every hit returns the same value, so the
scan is its `any`.) -/
def nearScan (st : DuplicateDetector) (simhash : Nat) : Bool :=
  let blocks := block_values simhash NUM_BITS (st.hammingK + 1)
  blocks.enum.any
    (fun bv =>
      ((st.blockIndexes.getD bv.1 []).getBucket bv.2).any
        (fun cand => hamming_distance simhash cand.1 NUM_BITS ≤ st.hammingK))

/-- `check` of `src/lib/duplicate_detector.py` (lines 61-84): `None` guards
first (both arguments), then the exact SHA-256 check, then the SimHash near
check.  The Python return value `(str | None, int | None)` is kept literally. -/
def checkLib (chash : String → String) (termHash : String → Nat)
    (st : DuplicateDetector) (content : Option String)
    (token_counts : Option (List (String × Int))) :
    Option String × Option Nat :=
  match content with
  | none => (none, none)
  | some c =>
    match token_counts with
    | none => (none, none)
    | some tc =>
      if chash c ∈ st.seenContentHashes then (some "exact", none)
      else
        let simhash := computeSimhash termHash tc NUM_BITS
        if st.nearScan simhash then (some "near", none)
        else (none, some simhash)

/-- `check` of `src/code/duplicate_detection.py` (lines 37-57): the exact
SHA-256 check runs *before* the `token_counts is None` guard. -/
def checkCode (chash : String → String) (termHash : String → Nat)
    (st : DuplicateDetector) (content : Option String)
    (token_counts : Option (List (String × Int))) :
    Option String × Option Nat :=
  match content with
  | none => (none, none)
  | some c =>
    if chash c ∈ st.seenContentHashes then (some "exact", none)
    else
      match token_counts with
      | none => (none, none)
      | some tc =>
        let simhash := computeSimhash termHash tc NUM_BITS
        if st.nearScan simhash then (some "near", none)
        else (none, some simhash)

end DuplicateDetector

/-! ## Query engine (`src/boolean_search.py`)

The file system is a parameter `fs : Char → Option (List Json)`: shard file
`<FINAL_INDEX_DIR>/<c>.jsonl` either does not exist (`none`, `open` raises
`FileNotFoundError`) or holds a list of JSON lines.  The NLTK
tokenizer/stemmer pipeline inside `lib.tokenizer.tokenize` is a parameter
`tokf : String → List (String × Nat)` returning the `counts` dict as an
association list. -/

/-- `SearchType` (`src/boolean_search.py` lines 12-14). -/
inductive SearchType where
  | AND
  | OR
  deriving DecidableEq, Repr

/-- `calculate_document_frequency` (`src/lib/index.py` lines 81-85): count of
distinct `doc_id`s, stored into the entry.  The Python method returns `None`. -/
def IndexEntry.calcDF (e : IndexEntry) : IndexEntry :=
  { e with document_frequency := ((e.postings.map (·.doc_id)).dedup).length }

/-- The scan of `fetch_from_index` over the shard's lines: the first entry
whose token matches is returned (after the `calculate_document_frequency()`
call, whose return value is `None`); if no line matches, the fallthrough
returns `(IndexEntry(token), 0)`.  The `index` accumulator built along the
way is dead code for the result.  The second component of the Python pair is
`None` in the found case and the int `0` in the fallthrough, modelled as
`Option Int`. -/
def fetchScan (token : String) : List Json → Except PyErr (IndexEntry × Option Int)
  | [] => .ok (⟨token, [], 0⟩, some 0)
  | line :: rest => do
    let entry ← IndexEntry.fromDict line
    if entry.token = token then pure (entry.calcDF, none)
    else fetchScan token rest

/-- `fetch_from_index` (`src/boolean_search.py` lines 16-28): opens
`<final_dir>/<token[0]>.jsonl` — with no handler, a missing file raises
`FileNotFoundError` — and scans it line by line. -/
def fetch_from_index (fs : Char → Option (List Json)) (token : String) :
    Except PyErr (IndexEntry × Option Int) :=
  match fs token.front with
  | none => .error .fileNotFoundError
  | some lines => fetchScan token lines

/-- `{p.doc_id for p in postings}` (`src/boolean_search.py` line 41). -/
def docSet (postings : List Posting) : Finset Int :=
  (postings.map (·.doc_id)).toFinset

/-- `merge_postings` (`src/boolean_search.py` lines 30-56).  The loop's early
`return []` (AND mode, an empty doc-id set) is the `any` guard; afterwards
`set.intersection(*doc_sets)` / `set.union(*doc_sets)` fold over the sets and
`sorted(shared)` lists the result ascending. -/
def merge_postings (postings_lists : List (List Posting))
    (search_type : SearchType) : List Int :=
  if postings_lists.isEmpty then []
  else if search_type = .AND ∧ postings_lists.any (fun ps => docSet ps = ∅) then []
  else
    match postings_lists.map docSet with
    | [] => []
    | s :: ss =>
      let shared := match search_type with
        | .AND => ss.foldl (· ∩ ·) s
        | .OR => ss.foldl (· ∪ ·) s
      shared.sort (· ≤ ·)

/-- `process_query` (`src/boolean_search.py` lines 59-64): tokenize the raw
query; empty counts give `[]`, otherwise `sorted(counts.keys())`. -/
def process_query (tokf : String → List (String × Nat)) (raw_query : String) :
    List String :=
  let counts := tokf raw_query
  if counts.isEmpty then []
  else ((counts.map (·.1)).insertionSort (· ≤ ·))

/-- `score_doc` (`src/boolean_search.py` lines 67-79): per entry, the first
posting with the given `doc_id` contributes `tf + 0.5 * int(importance)`
(the `break` makes it first-match-only); scores are `float`, modelled as `ℚ`
(every value taken is an exact multiple of 1/2). -/
def score_doc (doc_id : Int) (token_entries : List IndexEntry) : ℚ :=
  token_entries.foldl
    (fun score e =>
      match e.postings.find? (fun p => p.doc_id = doc_id) with
      | some p => score + (p.tf : ℚ) + (1 / 2) * (p.importance.toInt : ℚ)
      | none => score)
    0

/-- The result-assembly tail of `search` (`src/boolean_search.py` lines
109-117): look up each candidate's URL, score it, and stable-sort by score
descending (`scored_results.sort(key=lambda x: x[1], reverse=True)`; CPython's
sort is stable and `reverse=True` keeps ties in list order, exactly like
`List.insertionSort` with the `≥`-on-scores relation).  The doc-id mapping
dict is the parameter `doc_mapping`. -/
def rank_results (doc_mapping : Int → String) (matching_doc_ids : List Int)
    (token_entries : List IndexEntry) : List (String × ℚ) :=
  let scored := matching_doc_ids.map
    (fun d => (doc_mapping d, score_doc d token_entries))
  scored.insertionSort (fun a b => b.2 ≤ a.2)

/-- The same assembly keeping the doc-ids in place of their URLs (used to
state the tie-break property of `rank_results`; the sort relation reads only
the score, so the URL mapping commutes with it). -/
def rank_results_ids (matching_doc_ids : List Int)
    (token_entries : List IndexEntry) : List (Int × ℚ) :=
  let scored := matching_doc_ids.map (fun d => (d, score_doc d token_entries))
  scored.insertionSort (fun a b => b.2 ≤ a.2)

/-- `search` (`src/boolean_search.py` lines 82-117).  For every token the loop
body runs `entry = fetch_from_index(token)` — which returns a *pair* — and
immediately evaluates `entry.postings`, which raises `AttributeError` on a
tuple.  So the loop's first iteration either propagates `FileNotFoundError`
from `open` (missing shard) or raises `AttributeError`; only an empty token
list reaches `return []` beforehand.  The code beyond the loop is unreachable
for non-empty queries; its ranking tail is embedded as `rank_results` above. -/
def search (tokf : String → List (String × Nat))
    (fs : Char → Option (List Json)) (query : String) :
    Except PyErr (List (String × ℚ)) :=
  let tokens := process_query tokf query
  match tokens with
  | [] => .ok []
  | t :: _ =>
    match fetch_from_index fs t with
    | .error e => .error e
    | .ok _pair => .error .attributeError

/-! ## Partial-index writer/readers and the k-way merge
(`src/code/index_io.py`, `src/lib/index.py`) -/

/-- `write_partial_index` (`src/code/index_io.py` lines 26-31): one
`json.dump` of `{"entries": [...]}` — the file holds this single JSON
document (on a single line; `json.dump` emits no newlines with these
separators). -/
def write_partial_index (entries : List IndexEntry) : Json :=
  .obj [("entries", .arr (entries.map IndexEntry.toJsonCode))]

/-- `read_partial_index` (`src/lib/index.py` lines 193-202): `json.load` the
whole file, read `data["entries"]`, `IndexEntry.from_dict` each, then sort by
token (CPython's stable `list.sort(key=lambda x: x.token)`, here
`insertionSort`, also stable). -/
def read_partial_index (data : Json) : Except PyErr (List IndexEntry) := do
  let entriesJ ← data.getItem "entries"
  let arr ← entriesJ.asArr
  let entries ← arr.mapM IndexEntry.fromDict
  pure (entries.insertionSort (fun a b => a.token ≤ b.token))

/-- `Index.write_to_disk` (`src/lib/index.py` lines 132-138): one
`asdict(entry)` JSON line per entry, in the entries' stored order. -/
def write_to_disk (entries : List IndexEntry) : List Json :=
  entries.map IndexEntry.toJsonLib

/-- A heap element of the k-way merge: `HeapEntry(token, entry, file)`
(`src/lib/index.py` lines 174-190); the file handle is the index of the
partial file, and comparisons use only the token. -/
abbrev HeapItem := String × IndexEntry × Nat

/-- The partial files being consumed: remaining (unread) lines per file. -/
abbrev MergeFiles := List (List Json)

/-- Total number of unread lines (termination measure of the merge loop). -/
def MergeFiles.totalLines (files : MergeFiles) : Nat :=
  (files.map List.length).sum

/-- `heapq.heappush`: the heap is modelled as a token-sorted list whose head
is a minimal element, inserting after equal tokens.  (`heapq` guarantees only
that `heappop` returns a minimum; among equal tokens the order is
implementation-defined — spec §4.F: "ties broken arbitrarily" — and no claim
depends on it.) -/
def heapPush (item : HeapItem) : List HeapItem → List HeapItem
  | [] => [item]
  | h :: t => if h.1 ≤ item.1 then h :: heapPush item t else item :: h :: t

/-- `push_entry_to_heap` (`src/lib/index.py` lines 205-210): read the file's
next line; at EOF do nothing; otherwise `IndexEntry.from_dict(json.loads(line))`
(errors propagate) and push `(entry.token, entry, file)`. -/
def push_entry_to_heap (heap : List HeapItem) (files : MergeFiles) (i : Nat) :
    Except PyErr (List HeapItem × MergeFiles) :=
  match h : (files.getD i []) with
  | [] => .ok (heap, files)
  | line :: rest => do
    let entry ← IndexEntry.fromDict line
    pure (heapPush (entry.token, entry, i) heap, files.set i rest)

/-- The shard files being written by the merge: the currently open
`<current_letter>.jsonl` plus the closed ones, in opening order. -/
structure OutShards where
  currentLetter : Char
  currentLines : List Json
  closed : List (Char × List Json)

/-- Writing one finalized entry (`src/lib/index.py` lines 244-259): when the
token's first letter differs from the open shard's letter, close it and open
`<letter>.jsonl`; then write `json.dumps(asdict(entry))` as one line. -/
def OutShards.writeEntry (o : OutShards) (entry : IndexEntry) : OutShards :=
  let letter := entry.token.front
  let o' := if letter ≠ o.currentLetter then
              ⟨letter, [], o.closed ++ [(o.currentLetter, o.currentLines)]⟩
            else o
  { o' with currentLines := o'.currentLines ++ [entry.toJsonLib] }

/-- Closing the last shard at the end of the merge. -/
def OutShards.finish (o : OutShards) : List (Char × List Json) :=
  o.closed ++ [(o.currentLetter, o.currentLines)]

theorem heapPush_length (item : HeapItem) (l : List HeapItem) :
    (heapPush item l).length = l.length + 1 := by
  induction l with
  | nil => rfl
  | cons h t ih => by_cases hc : h.1 ≤ item.1 <;> simp [heapPush, hc, ih]

theorem totalLines_set {files : MergeFiles} {i : Nat} {line : Json}
    {rest : List Json} (h : files.getD i [] = line :: rest) :
    MergeFiles.totalLines (files.set i rest) + 1 = files.totalLines := by
  induction files generalizing i with
  | nil => simp [List.getD] at h
  | cons f fs ih =>
    cases i with
    | zero =>
      simp only [List.getD_cons_zero] at h
      subst h
      simp only [MergeFiles.totalLines, List.set, List.map_cons, List.sum_cons,
        List.length_cons]
      omega
    | succ j =>
      simp only [List.getD_cons_succ] at h
      have := ih h
      simp only [MergeFiles.totalLines, List.map_cons, List.sum_cons,
        List.set] at this ⊢
      omega

/-- Helper bound: popping a line for the heap never increases
`heap length + unread lines`. -/
theorem push_entry_to_heap_measure {heap : List HeapItem} {files : MergeFiles}
    {i : Nat} {heap' : List HeapItem} {files' : MergeFiles}
    (h : push_entry_to_heap heap files i = .ok (heap', files')) :
    heap'.length + files'.totalLines ≤ heap.length + files.totalLines := by
  unfold push_entry_to_heap at h
  split at h
  · cases h; omega
  · rename_i line rest hline
    cases hfd : IndexEntry.fromDict line with
    | error e =>
      rw [hfd] at h
      simp [Bind.bind, Except.bind] at h
    | ok entry =>
      rw [hfd] at h
      simp only [Bind.bind, Except.bind, pure, Except.pure] at h
      cases Except.ok.inj h
      rw [heapPush_length]
      have := totalLines_set hline
      omega

/-- The merge loop of `merge_partial_indexes` (`src/lib/index.py` lines
233-259).  The source pops the heap minimum, refills from the popped file,
drains all equal-token heap tops (merging them, refilling after each), and
then writes the merged entry with the letter-switch logic.  Here the two
nested `while` loops are a single small step that pops one heap item per
call, carrying the entry under accumulation in `cur`; an entry is written
exactly when the next popped token differs (or the heap is exhausted), which
is the same write sequence. -/
def mergeLoop (heap : List HeapItem) (files : MergeFiles)
    (cur : Option (String × IndexEntry)) (o : OutShards) :
    Except PyErr (List (Char × List Json)) :=
  match heap with
  | [] =>
    match cur with
    | none => .ok o.finish
    | some te => .ok ((o.writeEntry te.2).finish)
  | (t, e, i) :: rest =>
    match hp : push_entry_to_heap rest files i with
    | .error err => .error err
    | .ok (heap', files') =>
      match cur with
      | none => mergeLoop heap' files' (some (t, e)) o
      | some (t0, e0) =>
        if t = t0 then mergeLoop heap' files' (some (t0, e0.mergeLib e)) o
        else mergeLoop heap' files' (some (t, e)) (o.writeEntry e0)
termination_by heap.length + files.totalLines
decreasing_by
  all_goals
    have := push_entry_to_heap_measure hp
    simp only [List.length_cons] at *
    omega

/-- `merge_partial_indexes` (`src/lib/index.py` lines 213-262): seed the heap
with each file's first line, open `0.jsonl`, run the merge loop.  The result
is the list of shard files (letter, written lines) in opening order — the
initial `0.jsonl` file is present (and stays empty unless some token starts
with `'0'`). -/
def merge_partial_indexes (files : MergeFiles) :
    Except PyErr (List (Char × List Json)) := do
  let seeded ← (List.range files.length).foldlM
    (fun (hf : List HeapItem × MergeFiles) i => push_entry_to_heap hf.1 hf.2 i)
    ([], files)
  mergeLoop seeded.1 seeded.2 none ⟨'0', [], []⟩

/-! ## Population count facts for the pigeonhole property (claim C8) -/

/-- Unbounded binary population count (specification device for
`hammingLoop`). -/
def pop (x : Nat) : Nat :=
  if x = 0 then 0 else x % 2 + pop (x / 2)
termination_by x
decreasing_by exact Nat.div_lt_self (Nat.pos_of_ne_zero (by assumption)) one_lt_two

theorem pop_zero : pop 0 = 0 := by
  unfold pop; rfl

theorem pop_of_ne_zero {x : Nat} (h : x ≠ 0) : pop x = x % 2 + pop (x / 2) := by
  conv_lhs => unfold pop
  rw [if_neg h]

theorem hammingLoop_eq_pop_mod (x bits : Nat) :
    hammingLoop x bits = pop (x % 2 ^ bits) := by
  induction bits generalizing x with
  | zero => simp [hammingLoop, Nat.mod_one, pop_zero]
  | succ b ih =>
    by_cases hx : x = 0
    · simp [hammingLoop, hx, pop_zero]
    · rw [hammingLoop, if_neg hx, ih]
      have hmod2 : x % 2 ^ (b + 1) % 2 = x % 2 :=
        Nat.mod_mod_of_dvd x (dvd_pow_self 2 (Nat.succ_ne_zero b))
      have hdiv : x % 2 ^ (b + 1) / 2 = x / 2 % 2 ^ b := by
        rw [pow_succ, mul_comm, Nat.mod_mul_right_div_self]
      by_cases hz : x % 2 ^ (b + 1) = 0
      · have h2 : x % 2 = 0 := by rw [← hmod2, hz]
        have hd : x / 2 % 2 ^ b = 0 := by rw [← hdiv, hz]
        rw [hz, h2, hd, pop_zero]
      · rw [pop_of_ne_zero hz, hmod2, hdiv]

theorem pop_pos {x : Nat} (hx : x ≠ 0) : 1 ≤ pop x := by
  rw [pop_of_ne_zero hx]
  rcases Nat.eq_zero_or_pos (x / 2) with hd | hd
  · have h1 : x % 2 = 1 := by
      rcases Nat.mod_two_eq_zero_or_one x with h | h
      · exfalso
        apply hx
        omega
      · exact h
    omega
  · have := pop_pos (Nat.pos_iff_ne_zero.mp hd)
    omega
termination_by x
decreasing_by exact Nat.div_lt_self (Nat.pos_of_ne_zero hx) one_lt_two

theorem pop_add_pow_mul {k : Nat} (a b : Nat) (ha : a < 2 ^ k) :
    pop (a + 2 ^ k * b) = pop a + pop b := by
  induction k generalizing a with
  | zero =>
    interval_cases a
    simp [pop_zero]
  | succ k ih =>
    by_cases hX : a + 2 ^ (k + 1) * b = 0
    · have ha0 : a = 0 := by omega
      have hb0 : b = 0 := by
        have h2 : 0 < 2 ^ (k + 1) := Nat.pos_pow_of_pos _ (by omega)
        nlinarith
      simp [ha0, hb0, pop_zero]
    · have hrw : a + 2 ^ (k + 1) * b = a + 2 * (2 ^ k * b) := by ring
      rw [pop_of_ne_zero hX, hrw]
      have hmod : (a + 2 * (2 ^ k * b)) % 2 = a % 2 :=
        Nat.add_mul_mod_self_left a 2 (2 ^ k * b)
      have hdiv : (a + 2 * (2 ^ k * b)) / 2 = a / 2 + 2 ^ k * b :=
        Nat.add_mul_div_left a (2 ^ k * b) (by omega)
      have hlt : a / 2 < 2 ^ k := by
        have h2 : a < 2 ^ k * 2 := by
          calc a < 2 ^ (k + 1) := ha
            _ = 2 ^ k * 2 := by ring
        omega
      rw [hmod, hdiv, ih (a / 2) hlt]
      have hpa : a % 2 + pop (a / 2) = pop a := by
        by_cases h0 : a = 0
        · simp [h0, pop_zero]
        · rw [pop_of_ne_zero h0]
      omega

theorem block_values_64_4 (fp : Nat) :
    block_values fp 64 4 = [fp >>> 0 &&& 65535, fp >>> 16 &&& 65535,
      fp >>> 32 &&& 65535, fp >>> 48 &&& 65535] := rfl

theorem shift_and_mask (x s : Nat) : x >>> s &&& 65535 = x / 2 ^ s % 2 ^ 16 := by
  rw [Nat.shiftRight_eq_div_pow]
  have h : (65535 : Nat) = 2 ^ 16 - 1 := by decide
  rw [h, Nat.and_pow_two_sub_one_eq_mod]

theorem xor_div_mod (a b s n : Nat) :
    (a ^^^ b) / 2 ^ s % 2 ^ n = (a / 2 ^ s % 2 ^ n) ^^^ (b / 2 ^ s % 2 ^ n) := by
  apply Nat.eq_of_testBit_eq
  intro i
  simp only [Nat.testBit_mod_two_pow, ← Nat.shiftRight_eq_div_pow,
    Nat.testBit_shiftRight, Nat.testBit_xor]
  by_cases h : i < n <;> simp [h]

theorem pop_mod64_blocks (d : Nat) :
    pop (d % 2 ^ 64) =
      pop (d % 2 ^ 16) + pop (d / 2 ^ 16 % 2 ^ 16) +
      pop (d / 2 ^ 32 % 2 ^ 16) + pop (d / 2 ^ 48 % 2 ^ 16) := by
  set m := d % 2 ^ 64 with hm
  have hsplit : ∀ x : Nat, pop x = pop (x % 2 ^ 16) + pop (x / 2 ^ 16) := by
    intro x
    conv_lhs => rw [← Nat.mod_add_div x (2 ^ 16)]
    exact pop_add_pow_mul _ _ (Nat.mod_lt x (by positivity))
  have h1 : m % 2 ^ 16 = d % 2 ^ 16 := by
    rw [hm]
    exact Nat.mod_mod_of_dvd d (pow_dvd_pow 2 (by omega))
  have h2 : m / 2 ^ 16 = d / 2 ^ 16 % 2 ^ 48 := by
    rw [hm]
    have : (2 ^ 64 : Nat) = 2 ^ 16 * 2 ^ 48 := by norm_num
    rw [this, Nat.mod_mul_right_div_self]
  have h3 : d / 2 ^ 16 % 2 ^ 48 % 2 ^ 16 = d / 2 ^ 16 % 2 ^ 16 :=
    Nat.mod_mod_of_dvd _ (pow_dvd_pow 2 (by omega))
  have h4 : d / 2 ^ 16 % 2 ^ 48 / 2 ^ 16 = d / 2 ^ 32 % 2 ^ 32 := by
    have he : (2 ^ 48 : Nat) = 2 ^ 16 * 2 ^ 32 := by norm_num
    rw [he, Nat.mod_mul_right_div_self, Nat.div_div_eq_div_mul]
    norm_num
  have h5 : d / 2 ^ 32 % 2 ^ 32 % 2 ^ 16 = d / 2 ^ 32 % 2 ^ 16 :=
    Nat.mod_mod_of_dvd _ (pow_dvd_pow 2 (by omega))
  have h6 : d / 2 ^ 32 % 2 ^ 32 / 2 ^ 16 = d / 2 ^ 48 % 2 ^ 16 := by
    have he : (2 ^ 32 : Nat) = 2 ^ 16 * 2 ^ 16 := by norm_num
    rw [he, Nat.mod_mul_right_div_self, Nat.div_div_eq_div_mul]
    norm_num
  rw [hsplit m, h1, h2, hsplit (d / 2 ^ 16 % 2 ^ 48), h3, h4,
    hsplit (d / 2 ^ 32 % 2 ^ 32), h5, h6]
  omega

/-- Difference in a block forces at least one set bit in that block of the
XOR. -/
theorem pop_block_pos {a b s : Nat}
    (h : a / 2 ^ s % 2 ^ 16 ≠ b / 2 ^ s % 2 ^ 16) :
    1 ≤ pop ((a ^^^ b) / 2 ^ s % 2 ^ 16) := by
  apply pop_pos
  rw [xor_div_mod]
  intro hz
  exact h (Nat.xor_eq_zero.mp hz)

/-- Shared pigeonhole lemma: fingerprints at Hamming distance at most 3 agree
on one of the 4 16-bit blocks. -/
theorem block_match_of_hamming_le (a b : Nat) (h : hamming_distance a b 64 ≤ 3) :
    ∃ i, i < 4 ∧
      (block_values a 64 4).getD i 0 = (block_values b 64 4).getD i 0 := by
  by_contra hcon
  push_neg at hcon
  have h0 := hcon 0 (by omega)
  have h1 := hcon 1 (by omega)
  have h2 := hcon 2 (by omega)
  have h3 := hcon 3 (by omega)
  rw [block_values_64_4 a, block_values_64_4 b] at h0 h1 h2 h3
  simp only [List.getD_cons_zero, List.getD_cons_succ] at h0 h1 h2 h3
  rw [shift_and_mask a 0, shift_and_mask b 0] at h0
  rw [shift_and_mask a 16, shift_and_mask b 16] at h1
  rw [shift_and_mask a 32, shift_and_mask b 32] at h2
  rw [shift_and_mask a 48, shift_and_mask b 48] at h3
  have p0 := pop_block_pos h0
  have p1 := pop_block_pos h1
  have p2 := pop_block_pos h2
  have p3 := pop_block_pos h3
  have hd : hamming_distance a b 64 = pop ((a ^^^ b) % 2 ^ 64) :=
    hammingLoop_eq_pop_mod (a ^^^ b) 64
  have hsum := pop_mod64_blocks (a ^^^ b)
  have hz : (a ^^^ b) / 2 ^ 0 % 2 ^ 16 = (a ^^^ b) % 2 ^ 16 := by
    rw [pow_zero, Nat.div_one]
  rw [hz] at p0
  omega

/-- C8.  The banding pigeonhole: two fingerprints at Hamming distance at most
3 agree on at least one of the 4 16-bit blocks (`block_values` with
`num_bits = 64`, `num_blocks = 4`; block 0 is the low 16 bits). -/
theorem C8_block_pigeonhole (a b : Nat) (h : hamming_distance a b 64 ≤ 3) :
    ∃ i, i < 4 ∧
      (block_values a 64 4).getD i 0 = (block_values b 64 4).getD i 0 :=
  block_match_of_hamming_le a b h

/-- Witness for C8 at the concrete fingerprints 5 and 6 (distance 2). -/
theorem C8_block_pigeonhole_witness :
    hamming_distance 5 6 64 ≤ 3 ∧
    ∃ i, i < 4 ∧
      (block_values 5 64 4).getD i 0 = (block_values 6 64 4).getD i 0 :=
  ⟨by decide, C8_block_pigeonhole 5 6 (by decide)⟩

theorem Band.getBucket_cons_of_ne {kv : Nat × List (Nat × Nat)} {rest : Band}
    {key : Nat} (h : ¬kv.1 = key) :
    Band.getBucket (kv :: rest) key = Band.getBucket rest key := by
  unfold Band.getBucket
  rw [List.find?_cons_of_neg]
  simp [h]

theorem Band.getBucket_appendTo_self (band : Band) (key : Nat) (p : Nat × Nat) :
    (band.appendTo key p).getBucket key = band.getBucket key ++ [p] := by
  induction band with
  | nil => simp [Band.appendTo, Band.getBucket]
  | cons kv rest ih =>
    by_cases hk : kv.1 = key
    · simp [Band.appendTo, Band.getBucket, List.find?_cons, hk]
    · have hfind : List.find? (fun kv => decide (kv.1 = key)) (kv :: rest)
          = List.find? (fun kv => decide (kv.1 = key)) rest := by
        rw [List.find?_cons_of_neg]
        simp [hk]
      by_cases hs : (List.find? (fun kv => decide (kv.1 = key)) rest).isSome
      · have hcond : (List.find? (fun kv => decide (kv.1 = key))
            (kv :: rest)).isSome = true := by rw [hfind]; exact hs
        have hmap : Band.appendTo rest key p =
            List.map (fun kv => if kv.1 = key then (kv.1, kv.2 ++ [p]) else kv)
              rest := by
          rw [Band.appendTo, if_pos hs]
        rw [Band.appendTo, if_pos hcond, List.map_cons, if_neg hk, ← hmap,
          Band.getBucket_cons_of_ne hk, Band.getBucket_cons_of_ne hk, ih]
      · have hcond : ¬(List.find? (fun kv => decide (kv.1 = key))
            (kv :: rest)).isSome = true := by rw [hfind]; exact hs
        have happ : Band.appendTo rest key p = rest ++ [(key, [p])] := by
          rw [Band.appendTo, if_neg hs]
        rw [Band.appendTo, if_neg hcond, List.cons_append, ← happ,
          Band.getBucket_cons_of_ne hk, Band.getBucket_cons_of_ne hk, ih]

theorem getElem?_eq_some_getD {α : Type} (l : List α) (i : Nat) (d : α)
    (h : i < l.length) : l[i]? = some (l.getD i d) := by
  rw [List.getElem?_eq_getElem h, List.getD_eq_getElem?_getD,
    List.getElem?_eq_getElem h]
  rfl

theorem addDoc_blockIndexes_getD (st : DuplicateDetector) (fp d i : Nat)
    (hi : i < st.blockIndexes.length) :
    (st.addDoc fp d).blockIndexes.getD i [] =
      (st.blockIndexes.getD i []).appendTo
        ((block_values fp NUM_BITS (st.hammingK + 1)).getD i 0) (fp, d) := by
  simp only [DuplicateDetector.addDoc]
  rw [List.getD_eq_getElem?_getD, List.getElem?_map, List.getElem?_enum,
    List.getElem?_eq_getElem hi]
  rw [List.getD_eq_getElem?_getD, List.getElem?_eq_getElem hi]
  rfl

theorem addDoc_nearScan_true {st : DuplicateDetector} (fp d sim : Nat)
    (hk : st.hammingK = 3) (hlen : st.blockIndexes.length = st.hammingK + 1)
    (hham : hamming_distance sim fp 64 ≤ 3) :
    (st.addDoc fp d).nearScan sim = true := by
  obtain ⟨i, hi4, hieq⟩ := block_match_of_hamming_le sim fp hham
  have hK : (st.addDoc fp d).hammingK = st.hammingK := rfl
  have hBlen : (st.addDoc fp d).blockIndexes.length = st.blockIndexes.length := by
    simp [DuplicateDetector.addDoc]
  have hNB : NUM_BITS = 64 := rfl
  unfold DuplicateDetector.nearScan
  rw [List.any_eq_true]
  have hlen4 : (block_values sim NUM_BITS ((st.addDoc fp d).hammingK + 1)).length = 4 := by
    rw [hK, hk, hNB, block_values_64_4]
    rfl
  refine ⟨(i, (block_values sim NUM_BITS
    ((st.addDoc fp d).hammingK + 1)).getD i 0), ?_, ?_⟩
  · rw [List.mem_enum_iff_getElem?]
    exact getElem?_eq_some_getD _ i 0 (by rw [hlen4]; exact hi4)
  · rw [List.any_eq_true]
    have hgetD := addDoc_blockIndexes_getD st fp d i
      (by rw [hlen, hk]; exact hi4)
    refine ⟨(fp, d), ?_, ?_⟩
    · show (fp, d) ∈ ((st.addDoc fp d).blockIndexes.getD i []).getBucket
        ((block_values sim NUM_BITS ((st.addDoc fp d).hammingK + 1)).getD i 0)
      rw [hgetD, hK, hk, hNB, hieq, Band.getBucket_appendTo_self]
      simp
    · show decide (hamming_distance sim fp NUM_BITS ≤ (st.addDoc fp d).hammingK)
        = true
      rw [hK, hk, hNB]
      exact decide_eq_true hham

/-- C5 (counterexample).  The `src/code/duplicate_detection.py` variant of
`check` consults the exact-hash check *before* the `token_counts is None`
guard: with the document's content hash already registered it returns
`("exact", None)`, not `(None, None)`, although `token_counts` is `None`.
(The hash function is the constant map, standing for SHA-256 on the single
content `"x"` that occurs.) -/
theorem C5_counterexample :
    DuplicateDetector.checkCode (fun _ => "H") (fun _ => 0)
        ((DuplicateDetector.init 3).registerContentHash (fun _ => "H")
          (some "x"))
        (some "x") none = (some "exact", none) ∧
    DuplicateDetector.checkCode (fun _ => "H") (fun _ => 0)
        ((DuplicateDetector.init 3).registerContentHash (fun _ => "H")
          (some "x"))
        (some "x") none ≠ (none, none) := by
  exact ⟨by decide, by decide⟩

/-- C5 (amended).  `check` returns `(None, None)` whenever `html` is `None`
(both variants); when `token_counts` is `None` and `html` is not, the
`src/lib` variant returns `(None, None)` unconditionally, while the
`src/code` variant does so only if the content hash is not yet registered and
returns `("exact", None)` otherwise. -/
theorem C5_none_guards (chash : String → String) (termHash : String → Nat)
    (st : DuplicateDetector) (tc : Option (List (String × Int))) (c : String) :
    DuplicateDetector.checkLib chash termHash st none tc = (none, none) ∧
    DuplicateDetector.checkCode chash termHash st none tc = (none, none) ∧
    DuplicateDetector.checkLib chash termHash st (some c) none = (none, none) ∧
    (chash c ∉ st.seenContentHashes →
      DuplicateDetector.checkCode chash termHash st (some c) none
        = (none, none)) ∧
    (chash c ∈ st.seenContentHashes →
      DuplicateDetector.checkCode chash termHash st (some c) none
        = (some "exact", none)) := by
  refine ⟨rfl, rfl, rfl, ?_, ?_⟩
  · intro h
    simp only [DuplicateDetector.checkCode]
    rw [if_neg h]
  · intro h
    simp only [DuplicateDetector.checkCode]
    rw [if_pos h]

/-- Witness for C5 (amended) on a fresh detector and content `"y"`. -/
theorem C5_none_guards_witness :
    ((fun _ => "H") "y" ∉ (DuplicateDetector.init 3).seenContentHashes) ∧
    DuplicateDetector.checkCode (fun _ => "H") (fun _ => 0)
      (DuplicateDetector.init 3) (some "y") none = (none, none) :=
  ⟨by decide,
    (C5_none_guards (fun _ => "H") (fun _ => 0) (DuplicateDetector.init 3)
      none "y").2.2.2.1 (by decide)⟩

/-- C9 (counterexample).  After `add_doc(fp, d)`, a `check` whose fingerprint
is within Hamming distance 3 of `fp` need *not* return `("near", _)`: the
exact-hash check runs first, so re-checking already-registered content
returns `("exact", None)`.  Here `fp = 0`, the query's SimHash is also `0`
(distance 0), and the content `"x"` was registered. -/
theorem C9_counterexample :
    hamming_distance (computeSimhash (fun _ => 0) [("t", 1)] NUM_BITS) 0 64 ≤ 3 ∧
    DuplicateDetector.checkLib (fun s => s) (fun _ => 0)
        ((((DuplicateDetector.init 3).registerContentHash (fun s => s)
          (some "x"))).addDoc 0 0)
        (some "x") (some [("t", 1)]) = (some "exact", none) := by
  exact ⟨by decide, by decide⟩

/-- C9 (amended).  After `add_doc(fp, d)`, every subsequent `check` with
non-`None` arguments whose content hash is not already registered and whose
computed SimHash fingerprint is within Hamming distance 3 of `fp` returns
`("near", None)` — in both detector variants.  (`hammingK = 3` and the
`k + 1 = 4` band maps are the constructor's configuration, carried as
hypotheses on the state.) -/
theorem C9_near_after_addDoc (chash : String → String) (termHash : String → Nat)
    (st : DuplicateDetector) (fp d : Nat) (c : String)
    (tc : List (String × Int))
    (hk : st.hammingK = 3)
    (hlen : st.blockIndexes.length = st.hammingK + 1)
    (hseen : chash c ∉ st.seenContentHashes)
    (hham : hamming_distance (computeSimhash termHash tc NUM_BITS) fp 64 ≤ 3) :
    DuplicateDetector.checkLib chash termHash (st.addDoc fp d) (some c)
      (some tc) = (some "near", none) ∧
    DuplicateDetector.checkCode chash termHash (st.addDoc fp d) (some c)
      (some tc) = (some "near", none) := by
  have hseen' : chash c ∉ (st.addDoc fp d).seenContentHashes := hseen
  have hnear := addDoc_nearScan_true fp d (computeSimhash termHash tc NUM_BITS)
    hk hlen hham
  constructor
  · simp only [DuplicateDetector.checkLib]
    rw [if_neg hseen', if_pos hnear]
  · simp only [DuplicateDetector.checkCode]
    rw [if_neg hseen', if_pos hnear]

/-- Witness for C9 (amended) on a fresh detector, `fp = 0`, fingerprint 0. -/
theorem C9_near_after_addDoc_witness :
    (DuplicateDetector.init 3).hammingK = 3 ∧
    (DuplicateDetector.init 3).blockIndexes.length
      = (DuplicateDetector.init 3).hammingK + 1 ∧
    ((fun s => s) "y" ∉ (DuplicateDetector.init 3).seenContentHashes) ∧
    hamming_distance (computeSimhash (fun _ => 0) [("t", 1)] NUM_BITS) 0 64 ≤ 3 ∧
    DuplicateDetector.checkLib (fun s => s) (fun _ => 0)
      ((DuplicateDetector.init 3).addDoc 0 0) (some "y") (some [("t", 1)])
      = (some "near", none) :=
  ⟨by decide, by decide, by decide, by decide,
    (C9_near_after_addDoc (fun s => s) (fun _ => 0) (DuplicateDetector.init 3)
      0 0 "y" [("t", 1)] (by decide) (by decide) (by decide) (by decide)).1⟩

/-! ## Posting-order invariant (claim C10) -/

instance : IsTotal Posting (fun a b => a.doc_id ≤ b.doc_id) :=
  ⟨fun a b => Int.le_total a.doc_id b.doc_id⟩

instance : IsTrans Posting (fun a b => a.doc_id ≤ b.doc_id) :=
  ⟨fun _ _ _ hab hbc => le_trans hab hbc⟩

theorem aupLib_doc_id_mem {q : Posting} {d tf : Int} {imp : Importance} :
    ∀ {ps : List Posting}, q ∈ IndexEntry.aupLib d tf imp ps →
      q.doc_id = d ∨ q.doc_id ∈ ps.map (·.doc_id) := by
  intro ps
  induction ps with
  | nil =>
    intro hq
    simp [IndexEntry.aupLib] at hq
    simp [hq]
  | cons p ps ih =>
    intro hq
    simp only [IndexEntry.aupLib] at hq
    by_cases h1 : p.doc_id < d
    · rw [if_pos h1] at hq
      rcases List.mem_cons.mp hq with h | h
      · right; simp [h]
      · rcases ih h with h | h
        · left; exact h
        · right; simp only [List.map_cons, List.mem_cons]; right; exact h
    · rw [if_neg h1] at hq
      by_cases h2 : p.doc_id = d
      · rw [if_pos h2] at hq
        rcases List.mem_cons.mp hq with h | h
        · left; rw [h]; exact h2
        · right; simp only [List.map_cons, List.mem_cons]; right
          exact List.mem_map_of_mem _ h
      · rw [if_neg h2] at hq
        rcases List.mem_cons.mp hq with h | h
        · left; rw [h]
        · right
          exact List.mem_map_of_mem _ h

theorem aupLib_inv (d tf : Int) (imp : Importance) :
    ∀ {ps : List Posting}, PostingsInv ps →
      PostingsInv (IndexEntry.aupLib d tf imp ps) := by
  intro ps
  induction ps with
  | nil =>
    intro _
    simp [IndexEntry.aupLib, PostingsInv]
  | cons p ps ih =>
    intro h
    have hps : PostingsInv ps := h.tail
    have hplt : ∀ q ∈ ps, p.doc_id < q.doc_id := fun q hq =>
      (List.pairwise_cons.mp h).1 q hq
    simp only [IndexEntry.aupLib]
    by_cases h1 : p.doc_id < d
    · rw [if_pos h1]
      refine List.pairwise_cons.mpr ⟨?_, ih hps⟩
      intro q hq
      rcases aupLib_doc_id_mem hq with he | he
      · rw [he]; exact h1
      · rcases List.mem_map.mp he with ⟨q0, hq0, he0⟩
        rw [← he0]
        exact hplt q0 hq0
    · rw [if_neg h1]
      by_cases h2 : p.doc_id = d
      · rw [if_pos h2]
        exact List.pairwise_cons.mpr ⟨fun q hq => hplt q hq, hps⟩
      · rw [if_neg h2]
        have hd : d < p.doc_id := by omega
        refine List.pairwise_cons.mpr ⟨?_, h⟩
        intro q hq
        rcases List.mem_cons.mp hq with he | he
        · rw [he]; exact hd
        · exact lt_trans hd (hplt q he)

theorem updateFirstCode_map_doc_id {d tf : Int} {imp : Importance} :
    ∀ {ps ps' : List Posting},
      IndexEntry.updateFirstCode d tf imp ps = some ps' →
      ps'.map (·.doc_id) = ps.map (·.doc_id) := by
  intro ps
  induction ps with
  | nil => intro ps' h; simp [IndexEntry.updateFirstCode] at h
  | cons p ps ih =>
    intro ps' h
    simp only [IndexEntry.updateFirstCode] at h
    by_cases h1 : p.doc_id = d
    · rw [if_pos h1] at h
      cases Option.some.inj h
      simp
    · rw [if_neg h1] at h
      cases ho : IndexEntry.updateFirstCode d tf imp ps with
      | none => rw [ho] at h; simp at h
      | some ps0 =>
        rw [ho] at h
        simp only [Option.map] at h
        cases Option.some.inj h
        simp only [List.map_cons]
        rw [ih ho]

theorem updateFirstCode_none {d tf : Int} {imp : Importance} :
    ∀ {ps : List Posting},
      IndexEntry.updateFirstCode d tf imp ps = none →
      ∀ p ∈ ps, p.doc_id ≠ d := by
  intro ps
  induction ps with
  | nil => intro _ p hp; simp at hp
  | cons q ps ih =>
    intro h p hp
    simp only [IndexEntry.updateFirstCode] at h
    by_cases h1 : q.doc_id = d
    · rw [if_pos h1] at h; simp at h
    · rw [if_neg h1] at h
      rcases List.mem_cons.mp hp with he | he
      · rw [he]; exact h1
      · cases ho : IndexEntry.updateFirstCode d tf imp ps with
        | none => exact ih ho p he
        | some ps0 => rw [ho] at h; simp [Option.map] at h

theorem pairwise_lt_of_sorted_nodup {ps : List Posting}
    (hs : List.Sorted (fun a b => a.doc_id ≤ b.doc_id) ps)
    (hn : (ps.map (·.doc_id)).Nodup) : PostingsInv ps := by
  have hne : ps.Pairwise (fun a b => a.doc_id ≠ b.doc_id) :=
    (List.pairwise_map.mp hn)
  exact (hs.and hne).imp (fun h => lt_of_le_of_ne h.1 h.2)

theorem postingsInv_iff_map {ps : List Posting} :
    PostingsInv ps ↔ (ps.map (·.doc_id)).Pairwise (· < ·) := by
  rw [PostingsInv, List.pairwise_map]

theorem aupCode_inv (e : IndexEntry) (d tf : Int) (imp : Importance)
    (h : PostingsInv e.postings) :
    PostingsInv (e.aupCode d tf imp).postings := by
  unfold IndexEntry.aupCode
  cases ho : IndexEntry.updateFirstCode d tf imp e.postings with
  | some ps' =>
    show PostingsInv ps'
    rw [postingsInv_iff_map, updateFirstCode_map_doc_id ho,
      ← postingsInv_iff_map]
    exact h
  | none =>
    show PostingsInv ((e.postings ++ [Posting.mk d tf imp]).insertionSort
      (fun a b => a.doc_id ≤ b.doc_id))
    have hnotin := updateFirstCode_none ho
    have hsorted : List.Sorted (fun a b => a.doc_id ≤ b.doc_id)
        ((e.postings ++ [Posting.mk d tf imp]).insertionSort
          (fun a b => a.doc_id ≤ b.doc_id)) :=
      List.sorted_insertionSort _ _
    have hperm := List.perm_insertionSort
      (fun a b => a.doc_id ≤ b.doc_id) (e.postings ++ [Posting.mk d tf imp])
    have hnd0 : (e.postings.map (·.doc_id)).Nodup :=
      ((postingsInv_iff_map.mp h).imp fun hlt => ne_of_lt hlt)
    have hnd : ((e.postings ++ [Posting.mk d tf imp]).map (·.doc_id)).Nodup := by
      rw [List.map_append]
      simp only [List.map_cons, List.map_nil]
      rw [List.nodup_append]
      refine ⟨hnd0, List.nodup_singleton _, ?_⟩
      intro x hx
      simp only [List.mem_singleton]
      rcases List.mem_map.mp hx with ⟨p, hp, he⟩
      intro hxd
      exact hnotin p hp (by rw [← he] at hxd; exact hxd)
    have hndsort : (((e.postings ++ [Posting.mk d tf imp]).insertionSort
        (fun a b => a.doc_id ≤ b.doc_id)).map (·.doc_id)).Nodup :=
      ((hperm.map (·.doc_id)).nodup_iff).mpr hnd
    exact pairwise_lt_of_sorted_nodup hsorted hndsort

theorem addOrUpdatePostingLib_inv (e : IndexEntry) (d tf : Int)
    (imp : Importance) (h : PostingsInv e.postings) :
    PostingsInv (e.addOrUpdatePostingLib d tf imp).postings := by
  unfold IndexEntry.addOrUpdatePostingLib
  by_cases hc : e.postings.any (fun p => p.doc_id = d)
  · rw [if_pos hc]
    exact aupLib_inv d tf imp h
  · rw [if_neg hc]
    exact aupLib_inv d tf imp h

theorem mergeLib_inv (e other : IndexEntry) (h : PostingsInv e.postings) :
    PostingsInv (e.mergeLib other).postings := by
  unfold IndexEntry.mergeLib
  induction other.postings generalizing e with
  | nil => exact h
  | cons p ps ih =>
    rw [List.foldl_cons]
    exact ih _ (addOrUpdatePostingLib_inv e p.doc_id p.tf p.importance h)

theorem mergeCode_inv (e other : IndexEntry) (h : PostingsInv e.postings) :
    PostingsInv (e.mergeCode other).postings := by
  unfold IndexEntry.mergeCode
  induction other.postings generalizing e with
  | nil => exact h
  | cons p ps ih =>
    rw [List.foldl_cons]
    exact ih _ (aupCode_inv e p.doc_id p.tf p.importance h)

theorem insortEntry_mem {e e0 : IndexEntry} :
    ∀ {idx : PyIndex}, e ∈ PyIndex.insortEntry e0 idx → e = e0 ∨ e ∈ idx := by
  intro idx
  induction idx with
  | nil => intro h; simp [PyIndex.insortEntry] at h; simp [h]
  | cons f fs ih =>
    intro h
    simp only [PyIndex.insortEntry] at h
    by_cases hc : f.token ≤ e0.token
    · rw [if_pos hc] at h
      rcases List.mem_cons.mp h with he | he
      · right; exact List.mem_cons.mpr (Or.inl he)
      · rcases ih he with he2 | he2
        · left; exact he2
        · right; exact List.mem_cons.mpr (Or.inr he2)
    · rw [if_neg hc] at h
      rcases List.mem_cons.mp h with he | he
      · left; exact he
      · right; exact he

theorem updateEntry_mem {e : IndexEntry} {tok : String}
    {g : IndexEntry → IndexEntry} :
    ∀ {idx : PyIndex}, e ∈ PyIndex.updateEntry tok g idx →
      e ∈ idx ∨ ∃ f ∈ idx, e = g f := by
  intro idx
  induction idx with
  | nil => intro h; simp [PyIndex.updateEntry] at h
  | cons f fs ih =>
    intro h
    simp only [PyIndex.updateEntry] at h
    by_cases hc : f.token = tok
    · rw [if_pos hc] at h
      rcases List.mem_cons.mp h with he | he
      · right; exact ⟨f, List.mem_cons.mpr (Or.inl rfl), he⟩
      · left; exact List.mem_cons.mpr (Or.inr he)
    · rw [if_neg hc] at h
      rcases List.mem_cons.mp h with he | he
      · left; exact List.mem_cons.mpr (Or.inl he)
      · rcases ih he with he2 | he2
        · left; exact List.mem_cons.mpr (Or.inr he2)
        · rcases he2 with ⟨f0, hf0, hg⟩
          right
          exact ⟨f0, List.mem_cons.mpr (Or.inr hf0), hg⟩

theorem addToken_inv (aup : IndexEntry → Int → Int → Importance → IndexEntry)
    (haup : ∀ (e : IndexEntry) (d tf : Int) (imp : Importance),
      PostingsInv e.postings → PostingsInv (aup e d tf imp).postings)
    (idx : PyIndex) (tok : String) (d tf : Int) (imp : Importance)
    (h : ∀ e ∈ idx, PostingsInv e.postings) :
    ∀ e ∈ PyIndex.addToken aup idx tok d tf imp, PostingsInv e.postings := by
  intro e he
  unfold PyIndex.addToken at he
  by_cases htf : tf ≤ 0
  · rw [if_pos htf] at he
    exact h e he
  · rw [if_neg htf] at he
    have hidx : ∀ f ∈ (if idx.any (fun e => e.token = tok) then idx
        else idx.insortEntry ⟨tok, [], 0⟩), PostingsInv f.postings := by
      intro f hf
      by_cases hc : idx.any (fun e => e.token = tok)
      · rw [if_pos hc] at hf
        exact h f hf
      · rw [if_neg hc] at hf
        rcases insortEntry_mem hf with he2 | he2
        · rw [he2]; exact List.Pairwise.nil
        · exact h f he2
    rcases updateEntry_mem he with he2 | he2
    · exact hidx e he2
    · rcases he2 with ⟨f, hf, hg⟩
      rw [hg]
      exact haup f d tf imp (hidx f hf)

theorem mergeIndex_inv (merge : IndexEntry → IndexEntry → IndexEntry)
    (hm : ∀ (e o : IndexEntry), PostingsInv e.postings →
      PostingsInv (merge e o).postings)
    (other : PyIndex) :
    ∀ (idx : PyIndex), (∀ e ∈ idx, PostingsInv e.postings) →
      (∀ e ∈ other, PostingsInv e.postings) →
      ∀ e ∈ PyIndex.mergeIndex merge idx other, PostingsInv e.postings := by
  induction other with
  | nil =>
    intro idx hidx _ e he
    exact hidx e he
  | cons o os ih =>
    intro idx hidx hother e he
    unfold PyIndex.mergeIndex at he
    rw [List.foldl_cons] at he
    have hstep : ∀ f ∈ (if idx.any (fun g => g.token = o.token) then
        idx.updateEntry o.token (fun g => merge g o)
        else idx.insortEntry o), PostingsInv f.postings := by
      intro f hf
      by_cases hc : idx.any (fun g => g.token = o.token)
      · rw [if_pos hc] at hf
        rcases updateEntry_mem hf with he2 | he2
        · exact hidx f he2
        · rcases he2 with ⟨f0, hf0, hg⟩
          rw [hg]
          exact hm f0 o (hidx f0 hf0)
      · rw [if_neg hc] at hf
        rcases insortEntry_mem hf with he2 | he2
        · rw [he2]
          exact hother o (List.mem_cons.mpr (Or.inl rfl))
        · exact hidx f he2
    exact ih _ hstep (fun f hf => hother f (List.mem_cons.mpr (Or.inr hf))) e he

/-- C10.  Within an `IndexEntry` the posting `doc_id`s are strictly
increasing (hence unique), and this invariant (`PostingsInv`) is preserved by
every mutating operation starting from an entry that satisfies it:
`add_or_update_posting` (both the `src/lib` bisect variant and the `src/code`
scan-and-sort variant), `IndexEntry.merge` (both variants), `Index.add_token`
(for any posting updater preserving the invariant, covering both variants),
and `Index.merge` (likewise). -/
theorem C10_postings_strictly_increasing :
    (∀ (e : IndexEntry) (d tf : Int) (imp : Importance),
      PostingsInv e.postings →
        PostingsInv (e.addOrUpdatePostingLib d tf imp).postings) ∧
    (∀ (e : IndexEntry) (d tf : Int) (imp : Importance),
      PostingsInv e.postings → PostingsInv (e.aupCode d tf imp).postings) ∧
    (∀ (e other : IndexEntry),
      PostingsInv e.postings → PostingsInv (e.mergeLib other).postings) ∧
    (∀ (e other : IndexEntry),
      PostingsInv e.postings → PostingsInv (e.mergeCode other).postings) ∧
    (∀ (aup : IndexEntry → Int → Int → Importance → IndexEntry),
      (∀ (e : IndexEntry) (d tf : Int) (imp : Importance),
        PostingsInv e.postings → PostingsInv (aup e d tf imp).postings) →
      ∀ (idx : PyIndex) (tok : String) (d tf : Int) (imp : Importance),
        (∀ e ∈ idx, PostingsInv e.postings) →
        ∀ e ∈ PyIndex.addToken aup idx tok d tf imp,
          PostingsInv e.postings) ∧
    (∀ (merge : IndexEntry → IndexEntry → IndexEntry),
      (∀ (e o : IndexEntry), PostingsInv e.postings →
        PostingsInv (merge e o).postings) →
      ∀ (idx other : PyIndex),
        (∀ e ∈ idx, PostingsInv e.postings) →
        (∀ e ∈ other, PostingsInv e.postings) →
        ∀ e ∈ PyIndex.mergeIndex merge idx other, PostingsInv e.postings) :=
  ⟨addOrUpdatePostingLib_inv, aupCode_inv, mergeLib_inv, mergeCode_inv,
    addToken_inv,
    fun merge hm idx other hidx hother => mergeIndex_inv merge hm other idx hidx hother⟩

/-- Witness for C10: the invariant after inserting doc 1 then doc 0 into a
one-posting entry, with both posting updaters. -/
theorem C10_postings_strictly_increasing_witness :
    PostingsInv [Posting.mk 1 2 .NORMAL] ∧
    PostingsInv (IndexEntry.addOrUpdatePostingLib
      (IndexEntry.mk "t" [Posting.mk 1 2 .NORMAL] 1) 0 1 .TITLE).postings ∧
    PostingsInv (IndexEntry.aupCode
      (IndexEntry.mk "t" [Posting.mk 1 2 .NORMAL] 1) 0 1 .TITLE).postings :=
  ⟨by decide,
    C10_postings_strictly_increasing.1 (IndexEntry.mk "t" [Posting.mk 1 2 .NORMAL] 1)
      0 1 .TITLE (by decide),
    C10_postings_strictly_increasing.2.1 (IndexEntry.mk "t" [Posting.mk 1 2 .NORMAL] 1)
      0 1 .TITLE (by decide)⟩

/-! ## Boolean merge (claim C6) -/

theorem mem_foldl_inter (x : Int) :
    ∀ (ss : List (Finset Int)) (s : Finset Int),
      (x ∈ ss.foldl (· ∩ ·) s ↔ x ∈ s ∧ ∀ t ∈ ss, x ∈ t) := by
  intro ss
  induction ss with
  | nil => intro s; simp
  | cons t ts ih =>
    intro s
    rw [List.foldl_cons, ih]
    simp only [Finset.mem_inter, List.mem_cons]
    constructor
    · rintro ⟨⟨hs, ht⟩, hall⟩
      exact ⟨hs, fun u hu => by
        rcases hu with h | h
        · rw [h]; exact ht
        · exact hall u h⟩
    · rintro ⟨hs, hall⟩
      exact ⟨⟨hs, hall t (Or.inl rfl)⟩, fun u hu => hall u (Or.inr hu)⟩

theorem mem_foldl_union (x : Int) :
    ∀ (ss : List (Finset Int)) (s : Finset Int),
      (x ∈ ss.foldl (· ∪ ·) s ↔ x ∈ s ∨ ∃ t ∈ ss, x ∈ t) := by
  intro ss
  induction ss with
  | nil => intro s; simp
  | cons t ts ih =>
    intro s
    rw [List.foldl_cons, ih]
    simp only [Finset.mem_union, List.mem_cons]
    constructor
    · rintro (⟨hs | ht⟩ | ⟨u, hu, hx⟩)
      · left; exact hs
      · right; exact ⟨t, Or.inl rfl, ht⟩
      · right; exact ⟨u, Or.inr hu, hx⟩
    · rintro (hs | ⟨u, hu, hx⟩)
      · left; left; exact hs
      · rcases hu with h | h
        · left; right; rw [← h]; exact hx
        · right; exact ⟨u, h, hx⟩

/-- C6.  `merge_postings` returns the ascending-sorted list of the
intersection (`AND`) / union (`OR`) of the posting lists' doc-id sets, and in
`AND` mode an empty doc-id set forces the empty result. -/
theorem C6_merge_postings (pls : List (List Posting)) (st : SearchType)
    (hne : pls ≠ []) :
    List.Sorted (· < ·) (merge_postings pls st) ∧
    (st = .AND →
      ∀ x : Int, x ∈ merge_postings pls st ↔ ∀ ps ∈ pls, x ∈ docSet ps) ∧
    (st = .OR →
      ∀ x : Int, x ∈ merge_postings pls st ↔ ∃ ps ∈ pls, x ∈ docSet ps) ∧
    (st = .AND → (∃ ps ∈ pls, docSet ps = ∅) → merge_postings pls st = []) := by
  obtain ⟨p, rest, rfl⟩ : ∃ p rest, pls = p :: rest := by
    cases pls with
    | nil => exact absurd rfl hne
    | cons p rest => exact ⟨p, rest, rfl⟩
  have hnotempty : ¬(p :: rest : List (List Posting)).isEmpty = true := by simp
  unfold merge_postings
  rw [if_neg hnotempty]
  by_cases hcond : st = .AND ∧ (p :: rest).any (fun ps => docSet ps = ∅)
  · rw [if_pos hcond]
    obtain ⟨hst, hany⟩ := hcond
    subst hst
    refine ⟨List.sorted_nil, ?_, ?_, ?_⟩
    · intro _ x
      simp only [List.not_mem_nil, false_iff]
      intro hall
      rcases List.any_eq_true.mp hany with ⟨ps, hps, hemp⟩
      have := hall ps hps
      rw [decide_eq_true_eq] at hemp
      rw [hemp] at this
      exact absurd this (Finset.not_mem_empty x)
    · intro h; cases h
    · intro _ _; rfl
  · rw [if_neg hcond]
    simp only [List.map_cons]
    cases st with
    | AND =>
      have hany : ¬(p :: rest).any (fun ps => docSet ps = ∅) := by
        intro h; exact hcond ⟨rfl, h⟩
      refine ⟨Finset.sort_sorted_lt _, ?_, ?_, ?_⟩
      · intro _ x
        rw [Finset.mem_sort, mem_foldl_inter]
        constructor
        · rintro ⟨hp, hall⟩ ps hps
          rcases List.mem_cons.mp hps with h | h
          · rw [h]; exact hp
          · exact hall _ (List.mem_map_of_mem _ h)
        · intro hall
          refine ⟨hall p (List.mem_cons.mpr (Or.inl rfl)), ?_⟩
          intro t ht
          rcases List.mem_map.mp ht with ⟨ps, hps, he⟩
          rw [← he]
          exact hall ps (List.mem_cons.mpr (Or.inr hps))
      · intro h; cases h
      · intro _ hex
        exfalso
        rcases hex with ⟨ps, hps, hemp⟩
        exact hany (List.any_eq_true.mpr ⟨ps, hps, decide_eq_true hemp⟩)
    | OR =>
      refine ⟨Finset.sort_sorted_lt _, ?_, ?_, ?_⟩
      · intro h; cases h
      · intro _ x
        rw [Finset.mem_sort, mem_foldl_union]
        constructor
        · rintro (hp | ⟨t, ht, hx⟩)
          · exact ⟨p, List.mem_cons.mpr (Or.inl rfl), hp⟩
          · rcases List.mem_map.mp ht with ⟨ps, hps, he⟩
            exact ⟨ps, List.mem_cons.mpr (Or.inr hps), he ▸ hx⟩
        · rintro ⟨ps, hps, hx⟩
          rcases List.mem_cons.mp hps with h | h
          · left; rw [← h]; exact hx
          · right; exact ⟨docSet ps, List.mem_map_of_mem _ h, hx⟩
      · intro h; cases h

/-- Witness for C6 on two concrete posting lists in `OR` mode. -/
theorem C6_merge_postings_witness :
    ([[Posting.mk 0 1 .NORMAL], [Posting.mk 2 1 .NORMAL]] :
        List (List Posting)) ≠ [] ∧
    List.Sorted (· < ·)
      (merge_postings [[Posting.mk 0 1 .NORMAL], [Posting.mk 2 1 .NORMAL]] .OR) :=
  ⟨by decide,
    (C6_merge_postings [[Posting.mk 0 1 .NORMAL], [Posting.mk 2 1 .NORMAL]] .OR
      (by decide)).1⟩

/-! ## Result ordering (claim C7) -/

instance : IsTotal (String × ℚ) (fun a b => b.2 ≤ a.2) :=
  ⟨fun a b => le_total b.2 a.2⟩

instance : IsTrans (String × ℚ) (fun a b => b.2 ≤ a.2) :=
  ⟨fun _ _ _ hab hbc => le_trans hbc hab⟩

instance : IsTotal (Int × ℚ) (fun a b => b.2 ≤ a.2) :=
  ⟨fun a b => le_total b.2 a.2⟩

instance : IsTrans (Int × ℚ) (fun a b => b.2 ≤ a.2) :=
  ⟨fun _ _ _ hab hbc => le_trans hbc hab⟩

/-- The ordering the spec asks of the ranked results: score strictly
descending, or equal scores with doc-ids ascending. -/
def RankOrder (a b : Int × ℚ) : Prop :=
  b.2 < a.2 ∨ (a.2 = b.2 ∧ a.1 < b.1)

theorem orderedInsert_map_snd {α β : Type} (g : α → β) (h2 : β → ℚ)
    (h2a : α → ℚ) (hco : ∀ a, h2 (g a) = h2a a) (x : α) :
    ∀ l : List α,
      List.orderedInsert (fun a b => h2 b ≤ h2 a) (g x) (l.map g) =
        (List.orderedInsert (fun a b => h2a b ≤ h2a a) x l).map g := by
  intro l
  induction l with
  | nil => rfl
  | cons y t ih =>
    simp only [List.map_cons, List.orderedInsert]
    by_cases hc : h2a y ≤ h2a x
    · rw [if_pos (by rw [hco, hco]; exact hc), if_pos hc]
      simp
    · rw [if_neg (by rw [hco, hco]; exact hc), if_neg hc]
      simp only [List.map_cons]
      rw [ih]

theorem insertionSort_map_snd {α β : Type} (g : α → β) (h2 : β → ℚ)
    (h2a : α → ℚ) (hco : ∀ a, h2 (g a) = h2a a) :
    ∀ l : List α,
      List.insertionSort (fun a b => h2 b ≤ h2 a) (l.map g) =
        (List.insertionSort (fun a b => h2a b ≤ h2a a) l).map g := by
  intro l
  induction l with
  | nil => rfl
  | cons y t ih =>
    simp only [List.map_cons, List.insertionSort]
    rw [ih, orderedInsert_map_snd g h2 h2a hco]

theorem orderedInsert_rankOrder (x : Int × ℚ) :
    ∀ s : List (Int × ℚ), s.Pairwise RankOrder → (∀ z ∈ s, x.1 < z.1) →
      (List.orderedInsert (fun a b => b.2 ≤ a.2) x s).Pairwise RankOrder := by
  intro s
  induction s with
  | nil => intro _ _; exact List.pairwise_singleton _ _
  | cons y t ih =>
    intro hp hx
    have hyt : ∀ z ∈ t, RankOrder y z := (List.pairwise_cons.mp hp).1
    have hpt : t.Pairwise RankOrder := (List.pairwise_cons.mp hp).2
    simp only [List.orderedInsert]
    by_cases hc : y.2 ≤ x.2
    · rw [if_pos hc]
      refine List.pairwise_cons.mpr ⟨?_, hp⟩
      intro z hz
      rcases List.mem_cons.mp hz with hzy | hzt
      · subst hzy
        rcases lt_or_eq_of_le hc with hlt | heq
        · exact Or.inl hlt
        · exact Or.inr ⟨heq.symm, hx z (List.mem_cons.mpr (Or.inl rfl))⟩
      · have hzy2 : z.2 ≤ y.2 := by
          rcases hyt z hzt with h | h
          · exact le_of_lt h
          · exact le_of_eq h.1.symm
        have hzx2 : z.2 ≤ x.2 := le_trans hzy2 hc
        rcases lt_or_eq_of_le hzx2 with hlt | heq
        · exact Or.inl hlt
        · exact Or.inr ⟨heq.symm, hx z (List.mem_cons.mpr (Or.inr hzt))⟩
    · rw [if_neg hc]
      push_neg at hc
      refine List.pairwise_cons.mpr ⟨?_, ih hpt
        (fun z hz => hx z (List.mem_cons.mpr (Or.inr hz)))⟩
      intro z hz
      rcases (List.mem_orderedInsert _).mp hz with hzx | hzt
      · subst hzx
        exact Or.inl hc
      · exact hyt z hzt

theorem insertionSort_rankOrder :
    ∀ l : List (Int × ℚ), l.Pairwise (fun a b => a.1 < b.1) →
      (List.insertionSort (fun a b => b.2 ≤ a.2) l).Pairwise RankOrder := by
  intro l
  induction l with
  | nil => intro _; exact List.Pairwise.nil
  | cons x t ih =>
    intro hp
    have hx : ∀ z ∈ t, x.1 < z.1 := (List.pairwise_cons.mp hp).1
    simp only [List.insertionSort]
    refine orderedInsert_rankOrder x _ (ih (List.pairwise_cons.mp hp).2) ?_
    intro z hz
    exact hx z ((List.perm_insertionSort _ t).mem_iff.mp hz)

/-- C7.  The result list assembled by `search` (lines 109-117 of
`src/boolean_search.py`) is sorted by score descending; because the candidate
doc-ids enter in ascending order and CPython's sort is stable, equal-score
results keep ascending doc-id order.  `rank_results_ids` is the same
assembly retaining the doc-ids; `rank_results` is its image under the doc-id
mapping. -/
theorem C7_rank_ordering (m : Int → String) (es : List IndexEntry)
    (ds : List Int) (hds : ds.Pairwise (· < ·)) :
    rank_results m ds es
      = (rank_results_ids ds es).map (fun p => (m p.1, p.2)) ∧
    (rank_results_ids ds es).Pairwise RankOrder ∧
    List.Sorted (fun a b => b.2 ≤ a.2) (rank_results m ds es) := by
  refine ⟨?_, ?_, ?_⟩
  · show List.insertionSort _ (ds.map fun d => (m d, score_doc d es)) = _
    have hmaps : (ds.map fun d => (m d, score_doc d es))
        = (ds.map fun d => (d, score_doc d es)).map
            (fun p => (m p.1, p.2)) := by
      rw [List.map_map]
      rfl
    rw [hmaps]
    exact insertionSort_map_snd (fun p : Int × ℚ => (m p.1, p.2))
      (fun q : String × ℚ => q.2) (fun q : Int × ℚ => q.2) (fun _ => rfl) _
  · apply insertionSort_rankOrder
    rw [List.pairwise_map]
    exact hds
  · exact List.sorted_insertionSort _ _

/-- Witness for C7 with a score tie between doc-ids 0 and 2. -/
theorem C7_rank_ordering_witness :
    List.Pairwise (· < ·) ([0, 1, 2] : List Int) ∧
    (rank_results_ids [0, 1, 2]
      [IndexEntry.mk "x" [Posting.mk 0 1 .NORMAL, Posting.mk 1 2 .NORMAL,
        Posting.mk 2 1 .NORMAL] 0]).Pairwise RankOrder :=
  ⟨by decide,
    (C7_rank_ordering (fun _ => "u")
      [IndexEntry.mk "x" [Posting.mk 0 1 .NORMAL, Posting.mk 1 2 .NORMAL,
        Posting.mk 2 1 .NORMAL] 0]
      [0, 1, 2] (by decide)).2.1⟩

/-! ## Query-engine claims (C2, C3) -/

/-- C2.  `search` returns normally only on queries with no tokens (empty
result list); for any non-empty token list it raises — `AttributeError` as
soon as `fetch_from_index` returns its `(IndexEntry, df)` pair and the loop
body evaluates `entry.postings` on the tuple (or the `FileNotFoundError` from
`open` propagates first). -/
theorem C2_search_raises (tokf : String → List (String × Nat))
    (fs : Char → Option (List Json)) (q : String) :
    (process_query tokf q = [] → search tokf fs q = .ok []) ∧
    (∀ (t : String) (ts : List String) (pr : IndexEntry × Option Int),
      process_query tokf q = t :: ts → fetch_from_index fs t = .ok pr →
      search tokf fs q = .error .attributeError) ∧
    (process_query tokf q ≠ [] → ∃ er, search tokf fs q = .error er) := by
  refine ⟨?_, ?_, ?_⟩
  · intro h
    simp only [search, h]
  · intro t ts pr h hok
    simp only [search, h, hok]
  · intro h
    cases hpq : process_query tokf q with
    | nil => exact absurd hpq h
    | cons t ts =>
      cases hf : fetch_from_index fs t with
      | error er =>
        exact ⟨er, by simp only [search, hpq, hf]⟩
      | ok pr =>
        exact ⟨.attributeError, by simp only [search, hpq, hf]⟩

/-- Witness for C2: a one-token query against an existing (empty) shard. -/
theorem C2_search_raises_witness :
    process_query (fun s => if s = "" then [] else [(s, 1)]) "a" = ["a"] ∧
    fetch_from_index (fun _ => some []) "a"
      = .ok (IndexEntry.mk "a" [] 0, some 0) ∧
    search (fun s => if s = "" then [] else [(s, 1)]) (fun _ => some []) "a"
      = .error .attributeError :=
  ⟨by decide, by rfl,
    (C2_search_raises (fun s => if s = "" then [] else [(s, 1)])
        (fun _ => some []) "a").2.1
      "a" [] (IndexEntry.mk "a" [] 0, some 0) (by decide) (by rfl)⟩

/-- C3 (counterexample).  A missing shard file is *not* treated as empty
postings: `fetch_from_index` has no handler around `open`, so it raises
`FileNotFoundError` (and `search` on such a query fails rather than
completing). -/
theorem C3_counterexample :
    fetch_from_index (fun _ => none) "a" = .error .fileNotFoundError ∧
    search (fun s => if s = "" then [] else [(s, 1)]) (fun _ => none) "a"
      = .error .fileNotFoundError := by
  exact ⟨by rfl, by rfl⟩

theorem fetchScan_not_found {t : String} :
    ∀ {lines : List Json},
      (∀ l ∈ lines, ∃ e, IndexEntry.fromDict l = .ok e ∧ e.token ≠ t) →
      fetchScan t lines = .ok (⟨t, [], 0⟩, some 0) := by
  intro lines
  induction lines with
  | nil => intro _; rfl
  | cons l rest ih =>
    intro h
    obtain ⟨e, he, hne⟩ := h l (List.mem_cons.mpr (Or.inl rfl))
    simp only [fetchScan, he, Bind.bind, Except.bind]
    rw [if_neg hne]
    exact ih (fun l0 hl0 => h l0 (List.mem_cons.mpr (Or.inr hl0)))

/-- C3 (amended).  When the shard file for the token's first letter is
missing, `fetch_from_index` raises `FileNotFoundError`; the empty entry
(paired with `0`) is produced only when the shard file exists but none of its
lines carries the token. -/
theorem C3_missing_shard (fs : Char → Option (List Json)) (t : String) :
    (fs t.front = none →
      fetch_from_index fs t = .error .fileNotFoundError) ∧
    (∀ lines, fs t.front = some lines →
      (∀ l ∈ lines, ∃ e, IndexEntry.fromDict l = .ok e ∧ e.token ≠ t) →
      fetch_from_index fs t = .ok (⟨t, [], 0⟩, some 0)) := by
  constructor
  · intro h
    simp only [fetch_from_index, h]
  · intro lines h hnone
    simp only [fetch_from_index, h]
    exact fetchScan_not_found hnone

/-- Witness for C3 (amended): a shard holding only token `"a"`, queried for
`"ab"`. -/
theorem C3_missing_shard_witness :
    (fun c => if c = 'a' then
        some [Json.obj [("token", .str "a"), ("postings", .arr [])]]
      else none) ("ab".front)
      = some [Json.obj [("token", .str "a"), ("postings", .arr [])]] ∧
    fetch_from_index
      (fun c => if c = 'a' then
        some [Json.obj [("token", .str "a"), ("postings", .arr [])]]
      else none) "ab" = .ok (⟨"ab", [], 0⟩, some 0) :=
  ⟨by rfl,
    ((C3_missing_shard
      (fun c => if c = 'a' then
        some [Json.obj [("token", .str "a"), ("postings", .arr [])]]
      else none) "ab").2
      [Json.obj [("token", .str "a"), ("postings", .arr [])]]
      (by rfl)
      (by
        intro l hl
        simp only [List.mem_singleton] at hl
        subst hl
        exact ⟨⟨"a", [], 0⟩, by rfl, by decide⟩))⟩

/-! ## Partial-index round trip (claim C4) -/

/-- C4 (counterexample).  `write_partial_index` emits a single JSON document
`{"entries": [...]}` — not one `IndexEntry` per line — so the merger's
per-line reader (`push_entry_to_heap`, i.e. `IndexEntry.from_dict` on the
line) rejects the file's one line with `KeyError("token")`. -/
theorem C4_counterexample :
    IndexEntry.fromDict
        (write_partial_index [IndexEntry.mk "a" [Posting.mk 0 1 .NORMAL] 0])
      = .error (.keyError "token") := by rfl

theorem posting_fromDict_toJson (p : Posting) :
    Posting.fromDict p.toJson = .ok p := by
  cases p with
  | mk d tf imp => cases imp <;> rfl

theorem entry_fromDict_toJsonCode (e : IndexEntry) :
    IndexEntry.fromDict e.toJsonCode
      = .ok (IndexEntry.mk e.token e.postings 0) := by
  have hmapM : ∀ ps : List Posting,
      (ps.map Posting.toJson).mapM Posting.fromDict = .ok ps := by
    intro ps
    induction ps with
    | nil => rfl
    | cons p rest ih =>
      rw [List.map_cons, List.mapM_cons, posting_fromDict_toJson p, ih]
      rfl
  have hloop := hmapM e.postings
  unfold List.mapM at hloop
  simp [IndexEntry.fromDict, IndexEntry.toJsonCode, Json.getItem,
    Json.lookup, Json.getD, Json.asStr, Json.asArr, Json.asInt,
    Bind.bind, Except.bind, List.find?, pure, Except.pure, hloop]

theorem mapM_fromDict_map_toJsonCode :
    ∀ es : List IndexEntry,
      (es.map IndexEntry.toJsonCode).mapM IndexEntry.fromDict
        = .ok (es.map fun e => IndexEntry.mk e.token e.postings 0) := by
  intro es
  induction es with
  | nil => rfl
  | cons e rest ih =>
    rw [List.map_cons, List.mapM_cons, entry_fromDict_toJsonCode e, ih]
    rfl

/-- C4 (amended).  `write_partial_index` (`src/code/index_io.py`) writes the
whole index as one JSON object `{"entries": [...]}` with the entries in the
index's stored (token-ascending) order, each entry carrying only `token` and
`postings`.  `read_partial_index` (`src/lib/index.py`) parses exactly that
format: reading back a written index yields the same entries (tokens and
postings preserved elementwise; `document_frequency`, dropped by the writer,
comes back as the default `0`).  The merger's per-line reader does *not*
accept this format (see the counterexample). -/
theorem C4_writer_reader (es : List IndexEntry)
    (hs : es.Pairwise (fun a b => a.token < b.token)) :
    read_partial_index (write_partial_index es)
      = .ok (es.map fun e => IndexEntry.mk e.token e.postings 0) := by
  simp only [read_partial_index, write_partial_index, Json.getItem,
    Json.lookup, Json.asArr, List.find?, decide_True, Option.map_some',
    Bind.bind, Except.bind, pure, Except.pure]
  rw [mapM_fromDict_map_toJsonCode es]
  have hsorted : List.Sorted (fun a b : IndexEntry => a.token ≤ b.token)
      (es.map fun e => IndexEntry.mk e.token e.postings 0) := by
    rw [List.Sorted, List.pairwise_map]
    exact hs.imp (fun h => le_of_lt h)
  exact congrArg Except.ok hsorted.insertionSort_eq

/-- Witness for C4 (amended) on a two-entry index. -/
theorem C4_writer_reader_witness :
    List.Pairwise (fun a b : IndexEntry => a.token < b.token)
      [IndexEntry.mk "a" [Posting.mk 0 1 .NORMAL] 0, IndexEntry.mk "b" [] 0] ∧
    read_partial_index (write_partial_index
        [IndexEntry.mk "a" [Posting.mk 0 1 .NORMAL] 0, IndexEntry.mk "b" [] 0])
      = .ok [IndexEntry.mk "a" [Posting.mk 0 1 .NORMAL] 0,
             IndexEntry.mk "b" [] 0] := by
  have hpair : List.Pairwise (fun a b : IndexEntry => a.token < b.token)
      [IndexEntry.mk "a" [Posting.mk 0 1 .NORMAL] 0,
       IndexEntry.mk "b" [] 0] := by
    constructor
    · intro b hb
      simp only [List.mem_singleton] at hb
      subst hb
      rw [String.lt_iff_toList_lt]
      decide
    · exact List.pairwise_singleton _ _
  exact ⟨hpair,
    C4_writer_reader
      [IndexEntry.mk "a" [Posting.mk 0 1 .NORMAL] 0, IndexEntry.mk "b" [] 0]
      hpair⟩

/-! ## df at merge time (claim C1) -/

/-- C1.  `merge_partial_indexes` does **not** recompute `df` before writing:
on the single partial file whose one line is the spec's partial format
`{"token": "a", "postings": [{"doc_id": 0, "tf": 1, "importance": 0}]}` (no
`document_frequency` field), the final shard `a.jsonl` carries
`document_frequency = 0` while the entry has one posting — the written `df`
is the value `IndexEntry.from_dict` defaulted plus merge increments, never
`len(entry.postings)`.  (The merge also leaves behind the initially opened,
empty `0.jsonl` shard.) -/
theorem C1_df_not_recomputed :
    merge_partial_indexes
        [[Json.obj [("token", .str "a"),
          ("postings", .arr [.obj [("doc_id", .num 0), ("tf", .num 1),
            ("importance", .num 0)]])]]] =
      .ok [('0', []),
           ('a', [Json.obj [("token", .str "a"),
             ("postings", .arr [.obj [("doc_id", .num 0), ("tf", .num 1),
               ("importance", .num 0)]]),
             ("document_frequency", .num 0)]])] ∧
    IndexEntry.fromDict
        (Json.obj [("token", .str "a"),
          ("postings", .arr [.obj [("doc_id", .num 0), ("tf", .num 1),
            ("importance", .num 0)]]),
          ("document_frequency", .num 0)])
      = .ok (IndexEntry.mk "a" [Posting.mk 0 1 .NORMAL] 0) ∧
    (IndexEntry.mk "a" [Posting.mk 0 1 .NORMAL] 0).document_frequency
      ≠ ((IndexEntry.mk "a" [Posting.mk 0 1 .NORMAL] 0).postings.length : Int) := by
  refine ⟨?_, by rfl, by decide⟩
  have hga : "a".get 0 = 'a' := rfl
  simp [merge_partial_indexes, mergeLoop, push_entry_to_heap, heapPush,
    IndexEntry.fromDict, Posting.fromDict, Json.getItem, Json.lookup,
    Json.getD, Json.asInt, Json.asStr, Json.asArr, Importance.ofInt,
    OutShards.finish, OutShards.writeEntry, IndexEntry.toJsonLib,
    Posting.toJson, Importance.toInt, List.range_succ, Bind.bind, Except.bind,
    pure, Except.pure, List.mapM, List.mapM.loop, String.front, hga]
